import Mathlib

/-!
# Verification of the kidsonics-oneriser DSP core

A shallow embedding, over exact rationals, of the signal-processing core in
`Source/Components` (`pa.h`, `CombFilter.h`, `Filter.h`, `Reverb.h`,
`RiserProcessor.h`), together with theorems settling the specification's
claims about it.

Modelling conventions:
* `float`/`double` samples and parameters become `ℚ`; numeric literals such
  as `0.1f` are read as the exact decimal they denote.
* `unsigned int` (`uint`) values become `ℕ`, with an explicit `% 2^32`
  wherever the 32-bit wraparound of C arithmetic matters (subtraction,
  multiplication in size clamps).
* Pointer parameters that may be null become `Option ℚ`; a C dereference of
  a null pointer (undefined behavior) is modelled as `none` propagating.
* `juce::SmoothedValue` is embedded following the JUCE linear-ramp
  semantics (`reset`, `setTargetValue`, `getNextValue`).
* The heap block backing a ring buffer keeps, next to its `size` elements,
  one extra cell `oobCell` standing for the memory word at `data[size]`:
  `HeapBlock::operator[]` sends every index `>= size` to exactly that word.
-/

set_option linter.unusedVariables false

abbrev Sample := ℚ

/-- `2^32`, the modulus of `unsigned int` arithmetic. -/
def U32 : ℕ := 4294967296

/-- Truncation toward zero, the effect of C's `int(x)` / `(uint)x` on a
nonnegative value (returns an integer). -/
def ratTrunc (q : ℚ) : ℤ :=
  if 0 ≤ q then ⌊q⌋ else -⌊-q⌋

/-- C conversion of a nonnegative float to `unsigned int`: truncation, taken
mod `2^32` (a conversion that overflows is undefined in C; we pick the wrapped
value). A negative input (also undefined in C) maps to `0`. -/
def uintOfRat (q : ℚ) : ℕ :=
  (ratTrunc q).toNat % U32

namespace pa

namespace math

/-- `pa::math::clamp` — returns the clamped value. -/
def clamp (val min max : ℚ) : ℚ :=
  if val < min then min else if val > max then max else val

/-- `pa::math::clamp` specialised to `uint` operands. -/
def clampU (val min max : ℕ) : ℕ :=
  if val < min then min else if val > max then max else val

/-- `pa::math::map` — linear range mapping. -/
def map (val inMin inMax outMin outMax : ℚ) : ℚ :=
  ((val - inMin) / (inMax - inMin)) * (outMax - outMin) + outMin

/-- `pa::math::mod1` — the decimal part of a value, `input - FloatType(int(input))`. -/
def mod1 (input : ℚ) : ℚ :=
  input - (ratTrunc input : ℚ)

/-- The exact value of the double constant `M_PI`. -/
def piDouble : ℚ := 884279719003555 / 281474976710656

/-- C `fmod` on rationals: `a - b * trunc (a / b)`. -/
def fmodQ (a b : ℚ) : ℚ :=
  a - b * (ratTrunc (a / b) : ℚ)

/-- `pa::math::WrapPi` — wrap the input into `[-π, π]` (respectively a
half-π-shifted window when `useHalfPi`). -/
def WrapPi (input : ℚ) (useHalfPi : Bool) : ℚ :=
  if useHalfPi then
    fmodQ (input - piDouble * (1/2)) piDouble - piDouble * (1/2)
  else
    fmodQ (input - piDouble) (2 * piDouble) - piDouble

/-- `pa::math::FastTan` (called as `fastTan` by `Filter.h`) — wrapped input
fed to a fixed-order rational approximation. -/
def fastTan (x : ℚ) : ℚ :=
  let x := WrapPi x true
  let x2 := x * x
  let num := x * (-135135 + x2 * (17325 + x2 * (-378 + x2)))
  let den := -135135 + x2 * (62370 + x2 * (-3150 + 28 * x2))
  num / den

/-- `pa::math::LinearInterp` — clamped linear interpolation. -/
def LinearInterp (a b t : ℚ) : ℚ :=
  if t ≤ 0 then a else if t ≥ 1 then b else a + t * (b - a)

/-- `pa::math::CubicInterp` — cubic interpolation, Catmull-Rom variant
selectable. -/
def CubicInterp (a b c d t : ℚ) (useCatmullRom : Bool) : ℚ :=
  if t ≤ 0 then b
  else if t ≥ 1 then c
  else
    let t2 := t * t
    if useCatmullRom then
      let a0 := -(1/2) * a + (3/2) * b - (3/2) * c + (1/2) * d
      let a1 := a - (5/2) * b + 2 * c - (1/2) * d
      let a2 := -(1/2) * a + (1/2) * c
      a0 * t * t2 + a1 * t2 + a2 * t + b
    else
      let a0 := d - c - a + b
      let a1 := a - b - a0
      let a2 := c - a
      a0 * t * t2 + a1 * t2 + a2 * t + b

/-- `pa::math::ExpRounder` (called as `expRounder`) — the rounded exponential
transfer function. -/
def expRounder (input curveValue : ℚ) : ℚ :=
  let x := clamp input (-1) 1
  let c0 := clamp curveValue (-1) 1
  let c := if c0 ≥ 0 then map c0 0 1 0 20 else map c0 (-1) 0 (-(95/100)) 0
  if 0 < x ∧ x ≤ 1 then (x * (1 + c)) / (c * x + 1)
  else if -1 ≤ x ∧ x ≤ 0 then (-x * (1 + c)) / (c * x - 1)
  else 0

end math

namespace dsp

/-- `pa::dsp::InterpolationType`. -/
inductive InterpolationType where
  | noInterp
  | linearInterp
  | cosineInterp
  | cubicInterp
  | hermiteInterp
deriving DecidableEq, Repr

/-- `juce::SmoothedValue<FloatType>` with linear ramping (the only
instantiation the sources use). -/
structure SmoothedValue where
  currentValue : ℚ := 0
  target : ℚ := 0
  step : ℚ := 0
  stepsToTarget : ℕ := 0
  countdown : ℕ := 0
deriving DecidableEq, Repr

namespace SmoothedValue

/-- `setCurrentAndTargetValue`. -/
def setCurrentAndTargetValue (v : ℚ) (s : SmoothedValue) : SmoothedValue :=
  { s with currentValue := v, target := v, countdown := 0 }

/-- `reset(sampleRate, rampLengthInSeconds)`: fixes the number of ramp steps
and snaps the current value to the target. -/
def reset (sampleRate : ℕ) (rampLengthInSeconds : ℚ) (s : SmoothedValue) :
    SmoothedValue :=
  let steps := (⌊rampLengthInSeconds * (sampleRate : ℚ)⌋).toNat
  { (setCurrentAndTargetValue s.target s) with stepsToTarget := steps }

/-- `setTargetValue`. -/
def setTargetValue (v : ℚ) (s : SmoothedValue) : SmoothedValue :=
  if v = s.target then s
  else if s.stepsToTarget = 0 then setCurrentAndTargetValue v s
  else
    { s with target := v, countdown := s.stepsToTarget,
             step := (v - s.currentValue) / (s.stepsToTarget : ℚ) }

/-- `getNextValue`: one sample step of the linear ramp; returns the value and
the advanced state. -/
def getNextValue (s : SmoothedValue) : ℚ × SmoothedValue :=
  if s.countdown = 0 then (s.target, s)
  else
    let c := s.countdown - 1
    if c = 0 then (s.target, { s with currentValue := s.target, countdown := 0 })
    else
      let cur := s.currentValue + s.step
      (cur, { s with currentValue := cur, countdown := c })

end SmoothedValue

/-- `pa::dsp::HeapBlock<FloatType>`: `data` holds the `size` allocated
elements; `oobCell` is the memory word at `data[size]`, the single location
`operator[]` resolves every out-of-range index to. -/
structure HeapBlock where
  data : List ℚ := []
  oobCell : ℚ := 0
deriving DecidableEq, Repr

namespace HeapBlock

/-- `getSize`. -/
def getSize (h : HeapBlock) : ℕ := h.data.length

/-- `operator[]` used as an rvalue: any index `>= size` reads `data[size]`. -/
def get (h : HeapBlock) (i : ℕ) : ℚ :=
  if i ≥ h.data.length then h.oobCell else h.data.getD i 0

/-- `operator[]` used as an lvalue: any index `>= size` writes `data[size]`. -/
def set (h : HeapBlock) (i : ℕ) (v : ℚ) : HeapBlock :=
  if i ≥ h.data.length then { h with oobCell := v }
  else { h with data := h.data.set i v }

/-- `reallocate`: keeps as much existing data as possible; the fresh tail
(whose C contents are indeterminate) is modelled as zeros.  Every caller in
the sources clears the buffer right after, so the choice is immaterial. -/
def reallocate (h : HeapBlock) (n : ℕ) : HeapBlock :=
  { h with data := h.data.take n ++ List.replicate (n - h.data.length) 0 }

/-- `initialise`: set all `size` elements to 0 (the word past the end is not
touched). -/
def initialise (h : HeapBlock) : HeapBlock :=
  { h with data := List.replicate h.data.length 0 }

end HeapBlock

/-- `pa::dsp::RingBuffer<FloatType>`. -/
structure RingBuffer where
  buffer : HeapBlock := {}
  size : ℕ := 0
  writeIndex : ℕ := 0
  sampleRate : ℕ := 44100
  delaySmoothTime : ℚ := 0
  delayTime : SmoothedValue := {}
deriving DecidableEq, Repr

namespace RingBuffer

/-- `prepare(newBufferSizeSamples, newSampleRate)`.  The two `setClamp`
bounds are computed in 32-bit `uint` arithmetic. -/
def prepare (newBufferSizeSamples newSampleRate : ℕ) (rb : RingBuffer) :
    RingBuffer :=
  let n := newBufferSizeSamples % U32
  let r := newSampleRate % U32
  let n := pa.math.clampU n 0 (n * r * 10 % U32)
  let rb :=
    if n ≠ rb.size then
      let n := pa.math.clampU n 0 (r * 600 % U32)
      { rb with writeIndex := 0, buffer := rb.buffer.reallocate n, size := n }
    else rb
  let rb := if r ≠ rb.sampleRate then { rb with sampleRate := r } else rb
  let rb := if rb.sampleRate = 0 then { rb with sampleRate := 1 } else rb
  { rb with buffer := rb.buffer.initialise }

/-- `prepare(newBufferSizeSeconds, newSampleRate)`. -/
def prepareSeconds (newBufferSizeSeconds : ℚ) (newSampleRate : ℕ)
    (rb : RingBuffer) : RingBuffer :=
  prepare (uintOfRat (newBufferSizeSeconds * (newSampleRate : ℚ))) newSampleRate rb

/-- `clear`. -/
def clear (rb : RingBuffer) : RingBuffer :=
  { rb with buffer := rb.buffer.initialise }

/-- `setDelayTime(newDelayTime, smoothTime = 0.1)`. -/
def setDelayTime (newDelayTime : ℚ) (smoothTime : ℚ) (rb : RingBuffer) :
    RingBuffer :=
  let rb :=
    if smoothTime ≠ rb.delaySmoothTime then
      let st := pa.math.clamp smoothTime 0 smoothTime
      { rb with delaySmoothTime := st,
                delayTime := rb.delayTime.reset rb.sampleRate st }
    else rb
  let t := pa.math.clamp |newDelayTime| 0 ((rb.size : ℚ) / (rb.sampleRate : ℚ))
  { rb with delayTime := rb.delayTime.setTargetValue t }

/-- `getReadIndex(readOffset)`: `writeIndex - readOffset + size` in 32-bit
`uint` arithmetic, then one conditional subtraction of `size`. -/
def getReadIndex (rb : RingBuffer) (readOffset : ℕ) : ℕ :=
  let tmp := (rb.writeIndex % U32 + (U32 - readOffset % U32) + rb.size % U32) % U32
  if tmp ≥ rb.size then tmp - rb.size else tmp

/-- `getFromBufferNoInterp`. -/
def getFromBufferNoInterp (rb : RingBuffer) : ℚ × RingBuffer :=
  let g := rb.delayTime.getNextValue
  let rb := { rb with delayTime := g.2 }
  let readOffset := uintOfRat ((rb.sampleRate : ℚ) * g.1)
  (rb.buffer.get (rb.getReadIndex readOffset), rb)

/-- `getFromBufferLinearInterp`.  The fractional read offset is converted to
`uint` (truncation) when passed to `getReadIndex`; the neighbouring sample is
fetched at `readIndex - 1` computed in `uint` arithmetic. -/
def getFromBufferLinearInterp (rb : RingBuffer) : ℚ × RingBuffer :=
  let g := rb.delayTime.getNextValue
  let rb := { rb with delayTime := g.2 }
  let readOffset : ℚ := (rb.sampleRate : ℚ) * g.1
  let readIndex := rb.getReadIndex (uintOfRat readOffset)
  (pa.math.LinearInterp (rb.buffer.get readIndex)
      (rb.buffer.get ((readIndex % U32 + (U32 - 1)) % U32))
      (pa.math.mod1 readOffset),
   rb)

/-- `getFromBufferCubicInterp`. -/
def getFromBufferCubicInterp (rb : RingBuffer) : ℚ × RingBuffer :=
  let g := rb.delayTime.getNextValue
  let rb := { rb with delayTime := g.2 }
  let readOffset0 : ℚ := (rb.sampleRate : ℚ) * g.1
  let readOffset := if readOffset0 < 2 then 2 else readOffset0
  let readIndex := rb.getReadIndex (uintOfRat readOffset)
  let s1 := rb.buffer.get ((readIndex + 1) % U32)
  let s2 := rb.buffer.get readIndex
  let s3 := rb.buffer.get ((readIndex % U32 + (U32 - 1)) % U32)
  let s4 := rb.buffer.get ((readIndex % U32 + (U32 - 2)) % U32)
  (pa.math.CubicInterp s1 s2 s3 s4 (pa.math.mod1 readOffset) true, rb)

/-- Value-returning `getFromBuffer(interp)`. -/
def getFromBuffer (interp : InterpolationType) (rb : RingBuffer) :
    ℚ × RingBuffer :=
  match interp with
  | .noInterp => rb.getFromBufferNoInterp
  | .linearInterp => rb.getFromBufferLinearInterp
  | .cubicInterp => rb.getFromBufferCubicInterp
  | _ => rb.getFromBufferNoInterp

/-- Pointer-based `getFromBuffer(sample, interp)`: a null pointer is a no-op. -/
def getFromBufferPtr (sample : Option ℚ) (interp : InterpolationType)
    (rb : RingBuffer) : Option ℚ × RingBuffer :=
  match sample with
  | none => (none, rb)
  | some _ =>
    let g := rb.getFromBuffer interp
    (some g.1, g.2)

/-- `incrementWritePointer`. -/
def incrementWritePointer (rb : RingBuffer) : RingBuffer :=
  let w := (rb.writeIndex + 1) % U32
  { rb with writeIndex := if w ≥ rb.size then w - rb.size else w }

/-- `pushToBuffer(input)`: a null pointer is a no-op. -/
def pushToBuffer (input : Option ℚ) (rb : RingBuffer) : RingBuffer :=
  match input with
  | none => rb
  | some v =>
    let rb := { rb with buffer := rb.buffer.set rb.writeIndex v }
    rb.incrementWritePointer

/-- `forceIncrementWritePointer`. -/
def forceIncrementWritePointer (rb : RingBuffer) : RingBuffer :=
  rb.incrementWritePointer

/-- `getAndPush(input)`: push then read (no interpolation), in place. -/
def getAndPush (input : Option ℚ) (rb : RingBuffer) : Option ℚ × RingBuffer :=
  match input with
  | none => (none, rb)
  | some v =>
    let rb := rb.pushToBuffer (some v)
    let g := rb.getFromBufferNoInterp
    (some g.1, g.2)

end RingBuffer

/-- `Filter::FilterType`. -/
inductive FilterType where
  | lowpass
  | highpass
deriving DecidableEq, Repr

/-- The exact value of the double constant `M_SQRT1_2`. -/
def msqrt1_2 : ℚ := 6369051672525772 / 9007199254740992

/-- `Filter::Parameters`. -/
structure FilterParameters where
  type : FilterType := .lowpass
  cutoff : ℚ := 500
  q : ℚ := msqrt1_2
  enabled : Bool := true
deriving DecidableEq, Repr

/-- The coefficient/cache struct `co` inside `Filter`. -/
structure FilterCo where
  a0 : ℚ := 1
  a1 : ℚ := 0
  a2 : ℚ := 0
  b1 : ℚ := 0
  b2 : ℚ := 0
  dly1 : ℚ := 0
  dly2 : ℚ := 0
  k : ℚ := 0
  k2 : ℚ := 0
  n : ℚ := 0
  prevQ : ℚ := 0
  prevCutoff : ℚ := 0
  prevSampleRate : ℚ := 0
deriving DecidableEq, Repr

/-- `pa::dsp::Filter` (biquad lowpass/highpass). -/
structure Filter where
  parameters : FilterParameters := {}
  sampleRate : ℕ := 0
  co : FilterCo := {}
deriving DecidableEq, Repr

namespace Filter

/-- `Filter::prepare`: stores the new sample rate unchanged. -/
def prepare (newSampleRate : ℕ) (f : Filter) : Filter :=
  { f with sampleRate := newSampleRate }

/-- The coefficient assignments of the `switch` in `Filter::setCoefficients`
(`a1 = 2*a0` respectively `a1 = -2*a0` written out). -/
def coeffsFor (type : FilterType) (k k2 n q : ℚ) : ℚ × ℚ × ℚ × ℚ × ℚ :=
  match type with
  | .lowpass =>
      (k2 * n, 2 * (k2 * n), k2 * n, 2 * (k2 - 1) * n, (1 - k / q + k2) * n)
  | .highpass =>
      (n, -(2 * n), n, 2 * (k2 - 1) * n, (1 - k / q + k2) * n)

/-- `Filter::setCoefficients`: `k,k2` recomputed only when cutoff or sample
rate changed, `n` only when Q changed; the coefficient `switch` always runs. -/
def setCoefficients (f : Filter) : Filter :=
  let p := f.parameters
  let co := f.co
  let co :=
    if p.cutoff ≠ co.prevCutoff ∨ (f.sampleRate : ℚ) ≠ co.prevSampleRate then
      let kk := pa.math.fastTan (pa.math.piDouble * (p.cutoff / (f.sampleRate : ℚ)))
      { co with k := kk, k2 := kk * kk,
                prevCutoff := p.cutoff, prevSampleRate := (f.sampleRate : ℚ) }
    else co
  let co :=
    if p.q ≠ co.prevQ then
      { co with n := 1 / (1 + co.k / p.q + co.k2), prevQ := p.q }
    else co
  let c := coeffsFor p.type co.k co.k2 co.n p.q
  { f with co := { co with a0 := c.1, a1 := c.2.1, a2 := c.2.2.1,
                           b1 := c.2.2.2.1, b2 := c.2.2.2.2 } }

/-- `Filter::setParameters`. -/
def setParameters (newParameters : FilterParameters) (f : Filter) : Filter :=
  let f := { f with parameters := newParameters }
  if ¬f.parameters.enabled then f else f.setCoefficients

/-- `Filter::process(const float* input)`.  The C source reads
`if (!p.enabled || input == nullptr) return *input;` — so a null input is
dereferenced on either path, which is undefined behavior, modelled by `none`. -/
def process (input : Option ℚ) (f : Filter) : Option (ℚ × Filter) :=
  match input with
  | none => none
  | some x =>
    if ¬f.parameters.enabled then some (x, f)
    else
      let out := x * f.co.a0 + f.co.dly1
      some (out,
        { f with co := { f.co with
            dly1 := x * f.co.a1 + f.co.dly2 - f.co.b1 * out,
            dly2 := x * f.co.a2 - f.co.b2 * out } })

end Filter

/-- `CombFilter::Parameters`. -/
structure CombParameters where
  freq : ℚ := 0
  wet : ℚ := 0
  feedback : ℚ := 0
  interpType : InterpolationType := .noInterp
deriving DecidableEq, Repr

/-- `pa::dsp::CombFilter`. -/
structure CombFilter where
  delay : RingBuffer := {}
  parameters : CombParameters := {}
deriving DecidableEq, Repr

namespace CombFilter

/-- `CombFilter::prepare`. -/
def prepare (newSampleRate : ℕ) (cf : CombFilter) : CombFilter :=
  let d := cf.delay.prepare newSampleRate newSampleRate
  { cf with delay := d.setDelayTime 0 (1/10) }

/-- `CombFilter::setParameters(newParams, freqOffset)`: feedback clamped to
`[0,1]`, delay time set to `1/(freq+offset)` with a 30 ms ramp. -/
def setParameters (newParams : CombParameters) (freqOffset : ℚ)
    (cf : CombFilter) : CombFilter :=
  let p := { newParams with feedback := pa.math.clamp newParams.feedback 0 1 }
  { cf with parameters := p,
            delay := cf.delay.setDelayTime (1 / (p.freq + freqOffset)) (3/100) }

/-- `CombFilter::getDelay`: dispatch on the configured interpolation type. -/
def getDelay (cf : CombFilter) : ℚ × RingBuffer :=
  match cf.parameters.interpType with
  | .noInterp => cf.delay.getFromBuffer .noInterp
  | .linearInterp => cf.delay.getFromBuffer .linearInterp
  | .cubicInterp => cf.delay.getFromBuffer .cubicInterp
  | _ => cf.delay.getFromBuffer .noInterp

/-- `CombFilter::process`: read delayed sample, push `input + d*feedback`,
return `input + d*wet`. -/
def process (input : ℚ) (cf : CombFilter) : ℚ × CombFilter :=
  let g := cf.getDelay
  let delayed := g.1
  let feedbackLine := input + delayed * cf.parameters.feedback
  let d := g.2.pushToBuffer (some feedbackLine)
  (input + delayed * cf.parameters.wet, { cf with delay := d })

end CombFilter

/-- `Reverb::Parameters`. -/
structure ReverbParameters where
  damping : ℚ := 0
  size : ℚ := 0
  mix : ℚ := 0
  width : ℚ := 0
  spread : ℚ := 0
  numEarlyCombs : ℕ := 8
  numLateCombs : ℕ := 4
deriving DecidableEq, Repr

/-- `Reverb::Comb` (the private inner class). -/
structure ReverbComb where
  buffer : RingBuffer := {}
  previousValue : ℚ := 0
deriving DecidableEq, Repr

namespace ReverbComb

/-- `Comb::SetTime`. -/
def SetTime (delayTimeInSeconds : ℚ) (c : ReverbComb) : ReverbComb :=
  { c with buffer :=
      c.buffer.setDelayTime (pa.math.clamp delayTimeInSeconds (1/1000) 1) (1/10) }

/-- `Comb::processEarly(input, damp, feed)`: returns the undamped tap and the
updated comb. -/
def processEarly (input damp feed : ℚ) (c : ReverbComb) : ℚ × ReverbComb :=
  let g := c.buffer.getFromBuffer .noInterp
  let delayLine := g.1
  let pv := delayLine + damp * (c.previousValue - delayLine)
  let temp := input + pv * feed
  (delayLine, { buffer := g.2.pushToBuffer (some temp), previousValue := pv })

/-- `Comb::processLate(input)`: fixed 0.5 feedback, output `delayed - input`. -/
def processLate (input : ℚ) (c : ReverbComb) : ℚ × ReverbComb :=
  let g := c.buffer.getFromBuffer .noInterp
  let delayLine := g.1
  let temp := input + delayLine * (1/2)
  (delayLine - input, { c with buffer := g.2.pushToBuffer (some temp) })

end ReverbComb

/-- `pa::dsp::Reverb` (stereo comb-network reverb).  The comb vectors
`combs[channel][instance]` are modelled as total functions; entries outside
the constructed `2 × 8` / `2 × 4` region stand for the indeterminate result
of an out-of-range `std::vector` access and are never reached by states whose
`numEarlyCombs ≤ 8` and `numLateCombs ≤ 4`. -/
structure Reverb where
  sampleRate : ℕ := 44100
  preGain : ℚ := 0
  wet : ℚ := 0
  dry : ℚ := 0
  dampingSmooth : SmoothedValue := {}
  feedbackSmooth : SmoothedValue := {}
  wet1 : SmoothedValue := {}
  wet2 : SmoothedValue := {}
  drySmooth : SmoothedValue := {}
  parameters : ReverbParameters := {}
  earlyCombs : ℕ → ℕ → ReverbComb := fun _ _ => {}
  lateCombs : ℕ → ℕ → ReverbComb := fun _ _ => {}
  earlyCombTimes : ℕ → ℚ := fun _ => 0
  lateCombTimes : ℕ → ℚ := fun _ => 0

namespace Reverb

/-- `Reverb::wetGainScale`. -/
def wetGainScale : ℚ := 12/10

/-- `Reverb::setMixValues`. -/
def setMixValues (rv : Reverb) : Reverb :=
  let mixAmount := pa.math.clamp rv.parameters.mix 0 1
  { rv with dry := 1 - mixAmount,
            wet := pa.math.expRounder mixAmount (8/10) * (155/100) }

/-- `Reverb::setCombs`: retarget every comb's delay time, offsetting the two
channels by `±spread/2`. -/
def setCombs (rv : Reverb) : Reverb :=
  let spreadAmount := pa.math.clamp rv.parameters.spread 0 (1/100) / 2
  let spread : ℕ → ℚ := fun ch => if ch = 0 then spreadAmount else -spreadAmount
  { rv with
    earlyCombs := fun ch i =>
      if ch < 2 ∧ i < 8 then (rv.earlyCombs ch i).SetTime (rv.earlyCombTimes i + spread ch)
      else rv.earlyCombs ch i,
    lateCombs := fun ch i =>
      if ch < 2 ∧ i < 4 then (rv.lateCombs ch i).SetTime (rv.lateCombTimes i + spread ch)
      else rv.lateCombs ch i }

/-- `Reverb::setDamping`. -/
def setDamping (rv : Reverb) : Reverb :=
  { rv with
    dampingSmooth := rv.dampingSmooth.setTargetValue (rv.parameters.damping * (9/10)),
    feedbackSmooth := rv.feedbackSmooth.setTargetValue
      (rv.parameters.size * (78/100) + (2/10)) }

/-- `Reverb::setParameters`. -/
def setParameters (newParameters : ReverbParameters) (rv : Reverb) : Reverb :=
  let oldMix := rv.parameters.mix
  let oldSpread := rv.parameters.spread
  let oldDamp := rv.parameters.damping
  let oldSize := rv.parameters.size
  let rv := { rv with parameters := newParameters }
  let rv := if rv.parameters.mix ≠ oldMix then rv.setMixValues else rv
  let rv := { rv with preGain :=
      (1/10) / ((rv.parameters.numEarlyCombs + rv.parameters.numLateCombs : ℕ) : ℚ) }
  let rv := { rv with
    drySmooth := rv.drySmooth.setTargetValue rv.dry,
    wet1 := rv.wet1.setTargetValue (wetGainScale * rv.wet * (1 + rv.parameters.width)),
    wet2 := rv.wet2.setTargetValue (wetGainScale * rv.wet * (1 - rv.parameters.width)) }
  let rv := if rv.parameters.spread ≠ oldSpread then rv.setCombs else rv
  if rv.parameters.damping ≠ oldDamp ∨ rv.parameters.size ≠ oldSize
    then rv.setDamping else rv

/-- The parallel early-comb accumulation loop of `Reverb::process`, over
comb indices `0 .. n-1` of both channels. -/
def earlyLoop (input damp feed : ℚ) (cL cR : ℕ → ReverbComb) :
    ℕ → ℚ × ℚ × (ℕ → ReverbComb) × (ℕ → ReverbComb)
  | 0 => (0, 0, cL, cR)
  | n + 1 =>
    let acc := earlyLoop input damp feed cL cR n
    let gL := (acc.2.2.1 n).processEarly input damp feed
    let gR := (acc.2.2.2 n).processEarly input damp feed
    (acc.1 + gL.1, acc.2.1 + gR.1,
     Function.update acc.2.2.1 n gL.2, Function.update acc.2.2.2 n gR.2)

/-- The serial late-comb loop of `Reverb::process`. -/
def lateLoop (cL cR : ℕ → ReverbComb) (outL outR : ℚ) :
    ℕ → ℚ × ℚ × (ℕ → ReverbComb) × (ℕ → ReverbComb)
  | 0 => (outL, outR, cL, cR)
  | n + 1 =>
    let acc := lateLoop cL cR outL outR n
    let gL := (acc.2.2.1 n).processLate acc.1
    let gR := (acc.2.2.2 n).processLate acc.2.1
    (gL.1, gR.1,
     Function.update acc.2.2.1 n gL.2, Function.update acc.2.2.2 n gR.2)

/-- `Reverb::process(left, right)` on two (non-null) samples: returns the two
output samples and the updated reverb.  The null-pointer guard of the C
source corresponds to the caller holding actual samples here. -/
def process (left right : ℚ) (rv : Reverb) : (ℚ × ℚ) × Reverb :=
  let input := (left + right) * rv.preGain
  let gd := rv.dampingSmooth.getNextValue
  let gf := rv.feedbackSmooth.getNextValue
  let e := earlyLoop input gd.1 gf.1 (rv.earlyCombs 0) (rv.earlyCombs 1)
             rv.parameters.numEarlyCombs
  let l := lateLoop (rv.lateCombs 0) (rv.lateCombs 1) e.1 e.2.1
             rv.parameters.numLateCombs
  let gdry := rv.drySmooth.getNextValue
  let g1 := rv.wet1.getNextValue
  let g2 := rv.wet2.getNextValue
  ((gdry.1 * left + g1.1 * l.1 + g2.1 * l.2.1,
    gdry.1 * right + g1.1 * l.2.1 + g2.1 * l.1),
   { rv with
     dampingSmooth := gd.2, feedbackSmooth := gf.2,
     drySmooth := gdry.2, wet1 := g1.2, wet2 := g2.2,
     earlyCombs := fun ch =>
       if ch = 0 then e.2.2.1 else if ch = 1 then e.2.2.2 else rv.earlyCombs ch,
     lateCombs := fun ch =>
       if ch = 0 then l.2.2.1 else if ch = 1 then l.2.2.2 else rv.lateCombs ch })

end Reverb

end dsp

end pa

open pa.dsp

/-- `RiserProcessor` (the signal-chain orchestrator).  The per-channel
processor pairs model the C `std::array<_, 2>` members; the numeric defaults
are the C++ default member initialisers. -/
structure RiserProcessor where
  masterAmount : ℚ := 0
  reverbAmount : ℚ := 65/100
  filterAmount : ℚ := 1
  flangerAmount : ℚ := 7/10
  flanger : CombFilter × CombFilter := ({}, {})
  lowpass : Filter × Filter := ({}, {})
  highpass : Filter × Filter := ({}, {})
  reverb : Reverb := {}
  flangerParams : CombParameters := {}
  lowpassParams : FilterParameters := {}
  highpassParams : FilterParameters := {}
  reverbParams : ReverbParameters := {}

namespace RiserProcessor

/-- `Filter::process` at a non-null input always produces a value; this is
the shape every `RiserProcessor` call site uses (`&outL`, `&outR`). -/
def filterStep (x : ℚ) (f : Filter) : ℚ × Filter :=
  (Filter.process (some x) f).getD (x, f)

/-- The body of the per-sample loop of `RiserProcessor::process`:
comb → lowpass → highpass → reverb → hard clip to `±1.2`. -/
def processSample (st : RiserProcessor) (l r : ℚ) : (ℚ × ℚ) × RiserProcessor :=
  let fL := st.flanger.1.process l
  let fR := st.flanger.2.process r
  let lpL := filterStep fL.1 st.lowpass.1
  let lpR := filterStep fR.1 st.lowpass.2
  let hpL := filterStep lpL.1 st.highpass.1
  let hpR := filterStep lpR.1 st.highpass.2
  let rvb := st.reverb.process hpL.1 hpR.1
  let outL := pa.math.clamp rvb.1.1 (-(12/10)) (12/10)
  let outR := pa.math.clamp rvb.1.2 (-(12/10)) (12/10)
  ((outL, outR),
   { st with flanger := (fL.2, fR.2), lowpass := (lpL.2, lpR.2),
             highpass := (hpL.2, hpR.2), reverb := rvb.2 })

/-- `RiserProcessor::process(left, right, numSamples)` over the block of
stereo samples (the arrays are non-null and `numSamples` is their length;
with a null pointer or `numSamples <= 0` the C source leaves the arrays
untouched). -/
def process (st : RiserProcessor) : List (ℚ × ℚ) → List (ℚ × ℚ) × RiserProcessor
  | [] => ([], st)
  | (l, r) :: rest =>
    let s := st.processSample l r
    let t := process s.2 rest
    (s.1 :: t.1, t.2)

end RiserProcessor

/-! ## Scenario definitions used by the theorems -/

namespace pa.dsp

/-- Push a whole sequence of samples into a ring buffer, one
`pushToBuffer` per element. -/
def RingBuffer.pushList (rb : RingBuffer) (s : List ℚ) : RingBuffer :=
  s.foldl (fun b x => b.pushToBuffer (some x)) rb

/-- A ring buffer's delay-time smoother once its ramp has run to
completion: the current value has reached the target and no countdown
remains. -/
def SmoothedValue.settled (s : SmoothedValue) : SmoothedValue :=
  { s with currentValue := s.target, countdown := 0 }

/-- A reverb whose smoothed dry/wet gains have settled (the ramps of
`drySmooth`, `wet1` and `wet2` have run to completion). -/
def Reverb.settleMixGains (rv : Reverb) : Reverb :=
  { rv with drySmooth := rv.drySmooth.settled,
            wet1 := rv.wet1.settled,
            wet2 := rv.wet2.settled }

/-- A biquad state whose cached `k` is a given tangent value and whose
coefficients were computed by `Filter::setCoefficients` from it: the cutoff
and sample rate match their cached values (so `k` is kept), while Q differs
from its cached value (so `n` and the coefficient set are computed from `k`,
`k2` and the given Q). -/
def dcFilter (t : FilterType) (k q d1 d2 : ℚ) : Filter :=
  Filter.setCoefficients
    { parameters := { type := t, cutoff := 0, q := q, enabled := true },
      sampleRate := 0,
      co := { k := k, k2 := k * k, prevCutoff := 0, prevSampleRate := 0,
              prevQ := q + 1, dly1 := d1, dly2 := d2 } }

/-- One step of `Filter::process` on `dcFilter` at the constant input `c`
(the input pointer is non-null, so the optional result always carries a
value; `getD` only extracts it). -/
def dcProcess (t : FilterType) (k q c d1 d2 : ℚ) : ℚ × Filter :=
  (Filter.process (some c) (dcFilter t k q d1 d2)).getD (0, dcFilter t k q d1 d2)

/-- A one-sample comb (a comb filter of `Reverb` after `prepare(10)`:
`0.1 s · 10 Hz` = one sample of capacity), cleared. -/
def smallReverbComb : ReverbComb :=
  { buffer := { buffer := { data := [0], oobCell := 0 }, size := 1,
                writeIndex := 0, sampleRate := 10, delaySmoothTime := 0,
                delayTime := {} },
    previousValue := 0 }

/-- A freshly built reverb, re-prepared at 10 Hz and never handed a nonzero
mix: `dry`, `wet` and the gain smoothers still hold their constructed value
`0`, and `parameters.mix` is still the default `0`. -/
def cexReverbFresh : Reverb :=
  { sampleRate := 10, preGain := 0, wet := 0, dry := 0,
    earlyCombs := fun _ _ => smallReverbComb,
    lateCombs := fun _ _ => smallReverbComb }

/-- The same small reverb, but after its mix parameter has held a nonzero
value (so `setMixValues` has run for it): used to instantiate the amended
bypass claim. -/
def wReverbPrev : Reverb :=
  { cexReverbFresh with parameters := { mix := 1/2 } }

/-- Ring-buffer state exhibiting the read-index-0 edge of the linear
interpolating read: capacity 2, samples `[10, 20]`, the word one past the
allocation holding `99`, write index 1, sample rate 2, and a settled delay
time of `3/4 s` (a read offset of `1.5` samples). -/
def rbLinEdge : RingBuffer :=
  { buffer := { data := [10, 20], oobCell := 99 }, size := 2, writeIndex := 1,
    sampleRate := 2, delaySmoothTime := 0,
    delayTime := { currentValue := 3/4, target := 3/4, step := 0,
                   stepsToTarget := 0, countdown := 0 } }

/-- The default-constructed biquad: every `prev*` cache is `0`, the
coefficients still hold their initialisers (`a0 = 1`). -/
def cexFilterInit : Filter := {}

/-- Parameters equal to `cexFilterInit`'s caches (cutoff 0, Q 0, and the
filter's sample rate is still 0). -/
def cexFilterParams : FilterParameters :=
  { type := .lowpass, cutoff := 0, q := 0, enabled := true }

/-- Concrete comb-filter state for instantiating the comb step theorem:
two-sample buffer `[3, 4]`, settled one-sample delay, wet 2, feedback 1/2. -/
def combStepW : CombFilter :=
  { delay := { buffer := { data := [3, 4], oobCell := 0 }, size := 2,
               writeIndex := 0, sampleRate := 1, delaySmoothTime := 0,
               delayTime := { currentValue := 1, target := 1, step := 0,
                              stepsToTarget := 0, countdown := 0 } },
    parameters := { freq := 0, wet := 2, feedback := 1/2,
                    interpType := .noInterp } }

/-- Concrete ring buffer for instantiating the write-index invariant:
capacity 2, write index 1. -/
def rbInvW : RingBuffer :=
  { buffer := { data := [0, 0], oobCell := 0 }, size := 2, writeIndex := 1,
    sampleRate := 4, delaySmoothTime := 0, delayTime := {} }

end pa.dsp

/-! ## Helper lemmas -/

namespace pa.math

theorem clamp_lower {v lo hi : ℚ} (h : lo ≤ hi) : lo ≤ clamp v lo hi := by
  unfold clamp; split_ifs <;> linarith

theorem clamp_upper {v lo hi : ℚ} (h : lo ≤ hi) : clamp v lo hi ≤ hi := by
  unfold clamp; split_ifs <;> linarith

theorem clamp_of_mem {v lo hi : ℚ} (h1 : lo ≤ v) (h2 : v ≤ hi) :
    clamp v lo hi = v := by
  unfold clamp; split_ifs <;> linarith

theorem expRounder_zero (c : ℚ) : expRounder 0 c = 0 := by
  unfold expRounder clamp map
  norm_num

end pa.math

namespace pa.dsp

theorem SmoothedValue.getNextValue_of_countdown_zero (s : SmoothedValue)
    (h : s.countdown = 0) : s.getNextValue = (s.target, s) := by
  unfold getNextValue; simp [h]

theorem SmoothedValue.getNextValue_settled (s : SmoothedValue) :
    s.settled.getNextValue = (s.target, s.settled) := by
  apply getNextValue_of_countdown_zero; rfl

theorem SmoothedValue.target_setTargetValue (s : SmoothedValue) (v : ℚ) :
    (s.setTargetValue v).target = v := by
  unfold setTargetValue setCurrentAndTargetValue
  split_ifs with h1 h2 <;> simp_all

/-- Every read of a ring buffer leaves the stored data, the write index, the
size and the sample rate untouched (only the smoothed delay time advances). -/
theorem RingBuffer.getFromBuffer_preserve (interp : InterpolationType)
    (rb : RingBuffer) :
    (rb.getFromBuffer interp).2.buffer = rb.buffer
    ∧ (rb.getFromBuffer interp).2.writeIndex = rb.writeIndex
    ∧ (rb.getFromBuffer interp).2.size = rb.size
    ∧ (rb.getFromBuffer interp).2.sampleRate = rb.sampleRate := by
  cases interp <;>
    simp [getFromBuffer, getFromBufferNoInterp, getFromBufferLinearInterp,
      getFromBufferCubicInterp]

theorem listGetD_set_self {l : List ℚ} {i : ℕ} {v : ℚ} (h : i < l.length) :
    (l.set i v).getD i 0 = v := by
  induction l generalizing i with
  | nil => simp at h
  | cons a t ih =>
    cases i with
    | zero => simp
    | succ j => simpa using ih (by simpa using h)

theorem listTake_set_succ {l : List ℚ} {i : ℕ} {v : ℚ} (h : i < l.length) :
    (l.set i v).take (i + 1) = l.take i ++ [v] := by
  induction l generalizing i with
  | nil => simp at h
  | cons a t ih =>
    cases i with
    | zero => simp
    | succ j => simpa using ih (by simpa using h)

theorem listSet_last_full {l : List ℚ} {i : ℕ} {v : ℚ} (h : i + 1 = l.length) :
    l.set i v = l.take i ++ [v] := by
  have h1 : (l.set i v).take (i + 1) = l.take i ++ [v] :=
    listTake_set_succ (by omega)
  have h2 : (l.set i v).take (i + 1) = l.set i v := by
    apply List.take_of_length_le
    simp; omega
  rw [← h1, h2]

/-- Effect of one `pushToBuffer` on a well-formed ring buffer: the sample
lands at the write position, the data length and size are kept, and the
write index advances with wraparound. -/
theorem pushToBuffer_spec (rb : RingBuffer) (v : ℚ)
    (hlen : rb.size = rb.buffer.data.length)
    (hwi : rb.writeIndex < rb.size) (hsz : rb.size < U32) :
    (rb.pushToBuffer (some v)).buffer.get rb.writeIndex = v
    ∧ (rb.pushToBuffer (some v)).writeIndex
        = (if rb.writeIndex + 1 ≥ rb.size
           then rb.writeIndex + 1 - rb.size else rb.writeIndex + 1)
    ∧ (rb.pushToBuffer (some v)).size = rb.size
    ∧ (rb.pushToBuffer (some v)).buffer.data = rb.buffer.data.set rb.writeIndex v
    ∧ (rb.pushToBuffer (some v)).sampleRate = rb.sampleRate
    ∧ (rb.pushToBuffer (some v)).delayTime = rb.delayTime
    ∧ (rb.pushToBuffer (some v)).delaySmoothTime = rb.delaySmoothTime := by
  dsimp only [RingBuffer.pushToBuffer, RingBuffer.incrementWritePointer,
    HeapBlock.set]
  rw [if_neg (by omega)]
  dsimp only [HeapBlock.get]
  rw [if_neg (by rw [List.length_set]; omega)]
  rw [Nat.mod_eq_of_lt (show rb.writeIndex + 1 < U32 by omega)]
  exact ⟨listGetD_set_self (by omega), rfl, rfl, rfl, rfl, rfl, rfl⟩

/-- A push on a state satisfying the write-index invariant preserves it. -/
theorem pushToBuffer_writeIndex_lt (rb : RingBuffer) (v : ℚ)
    (h : rb.writeIndex < rb.size) (hsz : rb.size < U32) :
    (rb.pushToBuffer (some v)).writeIndex < (rb.pushToBuffer (some v)).size := by
  dsimp only [RingBuffer.pushToBuffer, HeapBlock.set,
    RingBuffer.incrementWritePointer]
  rw [Nat.mod_eq_of_lt (by omega)]
  split_ifs <;> omega

theorem CombFilter.getDelay_eq (cf : CombFilter) :
    cf.getDelay = cf.delay.getFromBuffer cf.parameters.interpType := by
  unfold getDelay
  cases h : cf.parameters.interpType <;> simp [RingBuffer.getFromBuffer]

end pa.dsp

/-! ## Claim theorems -/

open pa.dsp in
/-- C2: with the filter disabled (and a non-null input) `Filter::process`
returns the input sample unchanged and leaves the whole state — in
particular the delay registers `dly1`, `dly2` — untouched; but at the
claim's other case, a null input pointer, the source executes
`return *input`, dereferencing the null pointer (undefined behavior,
modelled as `none`): it does not return any input sample. -/
theorem filter_passthrough_and_null_deref (f : Filter) (x : ℚ) :
    Filter.process (some x)
        { f with parameters := { f.parameters with enabled := false } }
      = some (x, { f with parameters := { f.parameters with enabled := false } })
    ∧ Filter.process none f = none := by
  constructor
  · simp [Filter.process]
  · rfl

open pa.dsp in
/-- C4 (counterexample): `Filter::prepare` called with a sample rate of zero
stores `0`, not a minimum of `1` — the claimed forcing does not happen for
the biquad component, so its cutoff-to-coefficient conversion
`cutoff / sampleRate` can still divide by zero. -/
theorem filter_prepare_zero_cex :
    (Filter.prepare 0 cexFilterInit).sampleRate = 0
    ∧ ¬(1 ≤ (Filter.prepare 0 cexFilterInit).sampleRate) := by decide

open pa.dsp in
/-- C4 (amended): only `RingBuffer::prepare` forces the stored sample rate
to a minimum of 1 (for any requested size, rate and prior state), so the
ring buffer's delay-time-to-sample conversions never divide by zero;
`Filter::prepare` stores the given rate unchanged (a zero rate is guarded
only by a debug assertion in `setCoefficients`). -/
theorem prepare_rate_amended (n r : ℕ) (rb : RingBuffer) (f : Filter) :
    1 ≤ (rb.prepare n r).sampleRate ∧ (f.prepare r).sampleRate = r := by
  constructor
  · dsimp only [RingBuffer.prepare]
    split_ifs <;> simp_all <;> omega
  · rfl

open pa.dsp in
/-- C6: at the failing input — a linear-interpolated read whose circularly
resolved read index is 0 (state `rbLinEdge`: capacity 2, write index 1, read
offset 1.5) — the neighbouring sample is fetched at the 32-bit wrapped index
`0 - 1 = 4294967295`, which `HeapBlock::operator[]` resolves to the word one
past the allocation (`data[size]`, here holding 99), not to the element at
index capacity−1; the blend returns `(10 + 0.5·(99-10)) = 109/2`, not the
claimed circular blend `15`. -/
theorem linInterp_oob_neighbour :
    (rbLinEdge.getFromBufferLinearInterp).1
        = pa.math.LinearInterp (rbLinEdge.buffer.get 0) rbLinEdge.buffer.oobCell (1/2)
    ∧ (rbLinEdge.getFromBufferLinearInterp).1 = 109/2
    ∧ pa.math.LinearInterp (rbLinEdge.buffer.get 0) (rbLinEdge.buffer.get 1) (1/2) = 15
    ∧ (109 : ℚ)/2 ≠ 15 := by
  have key : (rbLinEdge.getFromBufferLinearInterp).1 = 109/2 := by
    rw [RingBuffer.getFromBufferLinearInterp]
    rw [show rbLinEdge.delayTime.getNextValue = (3/4, rbLinEdge.delayTime) from by
      norm_num [rbLinEdge, SmoothedValue.getNextValue]]
    dsimp only [rbLinEdge]
    rw [show uintOfRat (((2:ℕ):ℚ) * (3/4)) = 1 from by
      norm_num [uintOfRat, ratTrunc, U32]]
    rw [RingBuffer.getReadIndex]
    norm_num [U32, HeapBlock.get, pa.math.mod1, ratTrunc, pa.math.LinearInterp]
  refine ⟨?_, key, ?_, by norm_num⟩
  · rw [key]; norm_num [rbLinEdge, HeapBlock.get, pa.math.LinearInterp]
  · norm_num [rbLinEdge, HeapBlock.get, pa.math.LinearInterp]

open pa.dsp in
/-- C7 (counterexample): invoking `Filter::setParameters` (enabled) on the
default-constructed filter with cutoff, Q and sample rate all equal to the
cached previous values (all 0) still changes the coefficient `a0` from its
initial value 1 to 0 — the coefficient `switch` always reruns, so the
claimed "all left unchanged" fails when the stored coefficients do not
already match the cached `k`, `k2`, `n`. -/
theorem filter_cache_cex :
    (cexFilterParams.cutoff = cexFilterInit.co.prevCutoff
      ∧ cexFilterParams.q = cexFilterInit.co.prevQ
      ∧ ((cexFilterInit.sampleRate : ℚ) = cexFilterInit.co.prevSampleRate))
    ∧ (Filter.setParameters cexFilterParams cexFilterInit).co.a0
        ≠ cexFilterInit.co.a0 := by
  norm_num [cexFilterParams, cexFilterInit, Filter.setParameters,
    Filter.setCoefficients, Filter.coeffsFor]

open pa.dsp in
/-- C7 (amended): when `Filter::setParameters` is invoked with the filter
enabled, `k` and `k2` are left unchanged whenever cutoff and sample rate
equal the cached previous values, `n` is left unchanged whenever Q equals
its cached previous value, and when cutoff, Q and sample rate all equal the
cached values then `k`, `k2`, `n` and all `prev*` caches are unchanged while
`a0..b2` are recomputed from the unchanged `k`, `k2`, `n` and Q for the
current filter type — so they are unchanged exactly when they already held
those recomputed values (they do change if the stored coefficients do not
match, e.g. from the initial state or after a type switch). -/
theorem filter_cache_amended (f : Filter) (p : FilterParameters)
    (hen : p.enabled = true) :
    ((p.cutoff = f.co.prevCutoff ∧ (f.sampleRate : ℚ) = f.co.prevSampleRate) →
        (Filter.setParameters p f).co.k = f.co.k
        ∧ (Filter.setParameters p f).co.k2 = f.co.k2)
    ∧ (p.q = f.co.prevQ → (Filter.setParameters p f).co.n = f.co.n)
    ∧ ((p.cutoff = f.co.prevCutoff ∧ (f.sampleRate : ℚ) = f.co.prevSampleRate
          ∧ p.q = f.co.prevQ) →
        (Filter.setParameters p f).co =
          { f.co with
            a0 := (Filter.coeffsFor p.type f.co.k f.co.k2 f.co.n p.q).1,
            a1 := (Filter.coeffsFor p.type f.co.k f.co.k2 f.co.n p.q).2.1,
            a2 := (Filter.coeffsFor p.type f.co.k f.co.k2 f.co.n p.q).2.2.1,
            b1 := (Filter.coeffsFor p.type f.co.k f.co.k2 f.co.n p.q).2.2.2.1,
            b2 := (Filter.coeffsFor p.type f.co.k f.co.k2 f.co.n p.q).2.2.2.2 }) := by
  have hsp : Filter.setParameters p f = Filter.setCoefficients { f with parameters := p } := by
    simp [Filter.setParameters, hen]
  refine ⟨fun hcr => ?_, fun hq => ?_, fun hall => ?_⟩ <;>
    rw [hsp] <;> dsimp only [Filter.setCoefficients] <;> split_ifs <;> simp_all

open pa.dsp in
/-- C7 (witness): the amended caching theorem instantiated at the
default-constructed filter and parameters matching its caches. -/
theorem filter_cache_amended_witness :
    cexFilterParams.enabled = true
    ∧ (Filter.setParameters cexFilterParams cexFilterInit).co.k = cexFilterInit.co.k
    ∧ (Filter.setParameters cexFilterParams cexFilterInit).co.n = cexFilterInit.co.n :=
  ⟨rfl,
   ((filter_cache_amended cexFilterInit cexFilterParams rfl).1
      ⟨rfl, by norm_num [cexFilterInit, cexFilterParams]⟩).1,
   (filter_cache_amended cexFilterInit cexFilterParams rfl).2.1 rfl⟩

open pa.dsp in
/-- C8: for every comb-filter state and input sample, `CombFilter::process`
reads the delayed sample `d` from its ring buffer (through the configured
interpolation), returns `input + d·wet`, stores `input + d·feedback` at the
write position of the buffer and advances the write index with wraparound;
and whenever the parameters are set, the stored feedback is the requested
one clamped into `[0, 1]`. -/
theorem comb_process_step (cf : CombFilter) (x : ℚ)
    (hlen : cf.delay.size = cf.delay.buffer.data.length)
    (hwi : cf.delay.writeIndex < cf.delay.size)
    (hsz : cf.delay.size < U32) :
    (CombFilter.process x cf).1 = x + (cf.getDelay).1 * cf.parameters.wet
    ∧ (cf.getDelay).1 = (cf.delay.getFromBuffer cf.parameters.interpType).1
    ∧ (CombFilter.process x cf).2.delay.buffer.get cf.delay.writeIndex
        = x + (cf.getDelay).1 * cf.parameters.feedback
    ∧ (CombFilter.process x cf).2.delay.writeIndex
        = (if cf.delay.writeIndex + 1 ≥ cf.delay.size
           then cf.delay.writeIndex + 1 - cf.delay.size
           else cf.delay.writeIndex + 1)
    ∧ (∀ np fo, 0 ≤ (CombFilter.setParameters np fo cf).parameters.feedback
         ∧ (CombFilter.setParameters np fo cf).parameters.feedback ≤ 1) := by
  have hgd : cf.getDelay = cf.delay.getFromBuffer cf.parameters.interpType :=
    CombFilter.getDelay_eq cf
  have hp := RingBuffer.getFromBuffer_preserve cf.parameters.interpType cf.delay
  have h2 := pushToBuffer_spec (cf.delay.getFromBuffer cf.parameters.interpType).2
    (x + (cf.delay.getFromBuffer cf.parameters.interpType).1 * cf.parameters.feedback)
    (by rw [hp.2.2.1, hp.1]; exact hlen)
    (by rw [hp.2.1, hp.2.2.1]; exact hwi)
    (by rw [hp.2.2.1]; exact hsz)
  refine ⟨rfl, by rw [hgd], ?_, ?_, fun np fo => ?_⟩
  · show ((cf.getDelay).2.pushToBuffer
        (some (x + (cf.getDelay).1 * cf.parameters.feedback))).buffer.get
          cf.delay.writeIndex = _
    rw [hgd, ← hp.2.1]
    exact h2.1
  · show ((cf.getDelay).2.pushToBuffer
        (some (x + (cf.getDelay).1 * cf.parameters.feedback))).writeIndex = _
    rw [hgd, h2.2.1, hp.2.1, hp.2.2.1]
  · constructor
    · exact pa.math.clamp_lower (by norm_num)
    · exact pa.math.clamp_upper (by norm_num)

open pa.dsp in
/-- C8 (witness): the comb step theorem at the concrete state `combStepW`
(buffer `[3, 4]`, write index 0, settled one-sample delay, wet 2,
feedback 1/2) and input 5. -/
theorem comb_process_step_witness :
    combStepW.delay.writeIndex < combStepW.delay.size
    ∧ (CombFilter.process 5 combStepW).1
        = 5 + (combStepW.getDelay).1 * combStepW.parameters.wet :=
  ⟨by norm_num [combStepW],
   (comb_process_step combStepW 5 (by norm_num [combStepW])
      (by norm_num [combStepW]) (by norm_num [combStepW, U32])).1⟩

open pa.dsp in
/-- C10: for every ring buffer, `0 ≤ writeIndex < size` (with `writeIndex = 0`
at construction) is preserved by every operation once `size > 0`:
`prepare` resets the write index to 0 when it resizes and otherwise keeps
both fields; `pushToBuffer` (also on a null input), `forceIncrementWritePointer`
and `getAndPush` advance the index with wraparound below `size`; reads and
`setDelayTime` leave index and size unchanged. -/
theorem ringbuffer_writeIndex_invariant (rb : RingBuffer) (n r : ℕ) (v t s : ℚ)
    (interp : InterpolationType)
    (hwf : rb.writeIndex < rb.size ∨ rb.writeIndex = 0)
    (hsz : rb.size < U32) :
    (0 < (rb.prepare n r).size →
        (rb.prepare n r).writeIndex < (rb.prepare n r).size)
    ∧ (rb.writeIndex < rb.size →
        (rb.pushToBuffer (some v)).writeIndex < (rb.pushToBuffer (some v)).size)
    ∧ (rb.pushToBuffer none).writeIndex = rb.writeIndex
    ∧ (rb.writeIndex < rb.size →
        (rb.forceIncrementWritePointer).writeIndex
          < (rb.forceIncrementWritePointer).size)
    ∧ ((rb.getFromBuffer interp).2.writeIndex = rb.writeIndex
        ∧ (rb.getFromBuffer interp).2.size = rb.size)
    ∧ (rb.writeIndex < rb.size →
        (rb.getAndPush (some v)).2.writeIndex < (rb.getAndPush (some v)).2.size)
    ∧ ((rb.setDelayTime t s).writeIndex = rb.writeIndex
        ∧ (rb.setDelayTime t s).size = rb.size) := by
  have hread := RingBuffer.getFromBuffer_preserve interp rb
  refine ⟨?_, fun h => pushToBuffer_writeIndex_lt rb v h hsz, rfl, fun h => ?_,
    ⟨hread.2.1, hread.2.2.1⟩, fun h => ?_, ?_⟩
  · dsimp only [RingBuffer.prepare]
    split_ifs <;> intro hpos <;> simp_all <;> omega
  · dsimp only [RingBuffer.forceIncrementWritePointer,
      RingBuffer.incrementWritePointer]
    rw [Nat.mod_eq_of_lt (by omega)]
    split_ifs <;> omega
  · have hp := RingBuffer.getFromBuffer_preserve .noInterp (rb.pushToBuffer (some v))
    have hlt := pushToBuffer_writeIndex_lt rb v h hsz
    show ((rb.pushToBuffer (some v)).getFromBufferNoInterp).2.writeIndex
        < ((rb.pushToBuffer (some v)).getFromBufferNoInterp).2.size
    have e1 : ((rb.pushToBuffer (some v)).getFromBufferNoInterp).2.writeIndex
        = (rb.pushToBuffer (some v)).writeIndex := hp.2.1
    have e2 : ((rb.pushToBuffer (some v)).getFromBufferNoInterp).2.size
        = (rb.pushToBuffer (some v)).size := hp.2.2.1
    rw [e1, e2]
    exact hlt
  · constructor <;> (dsimp only [RingBuffer.setDelayTime]; split_ifs <;> rfl)

open pa.dsp in
/-- C10 (witness): the invariant theorem at the concrete buffer `rbInvW`
(capacity 2, write index 1). -/
theorem ringbuffer_writeIndex_invariant_witness :
    (rbInvW.writeIndex < rbInvW.size ∨ rbInvW.writeIndex = 0)
    ∧ (rbInvW.pushToBuffer (some 9)).writeIndex < (rbInvW.pushToBuffer (some 9)).size :=
  ⟨Or.inl (by norm_num [rbInvW]),
   (ringbuffer_writeIndex_invariant rbInvW 1 1 9 0 0 .noInterp
      (Or.inl (by norm_num [rbInvW])) (by norm_num [rbInvW, U32])).2.1
     (by norm_num [rbInvW])⟩

open pa.dsp in
/-- C9: every sample that `RiserProcessor::process` writes back into the
left and right channel arrays lies within `[-1.2, +1.2]`, for every prior
processor state and every block of samples — each output passes through the
final hard safety clip. -/
theorem riser_output_clipped (st : RiserProcessor) (xs : List (ℚ × ℚ))
    (p : ℚ × ℚ) (hp : p ∈ (st.process xs).1) :
    -(12/10) ≤ p.1 ∧ p.1 ≤ 12/10 ∧ -(12/10) ≤ p.2 ∧ p.2 ≤ 12/10 := by
  induction xs generalizing st with
  | nil => simp [RiserProcessor.process] at hp
  | cons hd tl ih =>
    obtain ⟨l, r⟩ := hd
    simp only [RiserProcessor.process, List.mem_cons] at hp
    rcases hp with rfl | hp'
    · dsimp only [RiserProcessor.processSample]
      have hlohi : (-(12/10) : ℚ) ≤ 12/10 := by norm_num
      exact ⟨pa.math.clamp_lower hlohi, pa.math.clamp_upper hlohi,
        pa.math.clamp_lower hlohi, pa.math.clamp_upper hlohi⟩
    · exact ih _ hp'

open pa.dsp in
/-- C9 (witness): the clip theorem at the default-constructed processor and
the one-sample block `[(2, -3)]`. -/
theorem riser_output_clipped_witness :
    (RiserProcessor.processSample ({} : RiserProcessor) 2 (-3)).1
        ∈ (RiserProcessor.process ({} : RiserProcessor) [(2, -3)]).1
    ∧ -(12/10) ≤ (RiserProcessor.processSample ({} : RiserProcessor) 2 (-3)).1.1
    ∧ (RiserProcessor.processSample ({} : RiserProcessor) 2 (-3)).1.1 ≤ 12/10 := by
  have hp : (RiserProcessor.processSample ({} : RiserProcessor) 2 (-3)).1
      ∈ (RiserProcessor.process ({} : RiserProcessor) [(2, -3)]).1 := by
    simp [RiserProcessor.process]
  have h := riser_output_clipped {} [(2, -3)] _ hp
  exact ⟨hp, h.1, h.2.1⟩

open pa.dsp in
/-- When the stereo wet gains are settled at 0, `Reverb::process` scales the
two samples by the settled dry gain only (whatever the comb network
computes). -/
theorem reverb_process_wets_zero (rv : Reverb) (l r : ℚ)
    (hd0 : rv.drySmooth.countdown = 0)
    (h10 : rv.wet1.countdown = 0) (h20 : rv.wet2.countdown = 0)
    (hw1 : rv.wet1.target = 0) (hw2 : rv.wet2.target = 0) :
    (Reverb.process l r rv).1
      = (rv.drySmooth.target * l, rv.drySmooth.target * r) := by
  dsimp only [Reverb.process]
  rw [SmoothedValue.getNextValue_of_countdown_zero _ hd0,
      SmoothedValue.getNextValue_of_countdown_zero _ h10,
      SmoothedValue.getNextValue_of_countdown_zero _ h20]
  dsimp only
  rw [hw1, hw2]
  simp

open pa.dsp in
/-- Effect of `Reverb::setParameters` on dry/wet gains when the mix changed:
`setMixValues` runs and the smoothed gain targets are recomputed from the
clamped mix. -/
theorem reverb_setParameters_mix_changed (rv : Reverb) (p : ReverbParameters)
    (hne : p.mix ≠ rv.parameters.mix) :
    (Reverb.setParameters p rv).dry = 1 - pa.math.clamp p.mix 0 1
    ∧ (Reverb.setParameters p rv).drySmooth.target
        = 1 - pa.math.clamp p.mix 0 1
    ∧ (Reverb.setParameters p rv).wet1.target
        = Reverb.wetGainScale
            * (pa.math.expRounder (pa.math.clamp p.mix 0 1) (8/10) * (155/100))
            * (1 + p.width)
    ∧ (Reverb.setParameters p rv).wet2.target
        = Reverb.wetGainScale
            * (pa.math.expRounder (pa.math.clamp p.mix 0 1) (8/10) * (155/100))
            * (1 - p.width) := by
  dsimp only [Reverb.setParameters]
  split_ifs with h1 h2 h3 <;>
    simp_all [Reverb.setMixValues, Reverb.setCombs, Reverb.setDamping,
      SmoothedValue.target_setTargetValue, Reverb.wetGainScale]

open pa.dsp in
/-- C1 (amended): for every reverb state whose parameters are set with
`mix = 0` while the previous mix was nonzero (so that `setMixValues`
recomputes the gains — the code skips it when the mix is unchanged), the
resulting state has `dry = 1` and gain targets `dry→1`, `wet1→0`, `wet2→0`,
and once the smoothed dry/wet gains have settled, `process(l, r)` leaves the
two samples unchanged. -/
theorem reverb_bypass_amended (rv : Reverb) (p : ReverbParameters) (l r : ℚ)
    (hmix : p.mix = 0) (hold : rv.parameters.mix ≠ 0) :
    (Reverb.setParameters p rv).dry = 1
    ∧ (Reverb.setParameters p rv).drySmooth.target = 1
    ∧ (Reverb.setParameters p rv).wet1.target = 0
    ∧ (Reverb.setParameters p rv).wet2.target = 0
    ∧ (Reverb.process l r ((Reverb.setParameters p rv).settleMixGains)).1
        = (l, r) := by
  have hne : p.mix ≠ rv.parameters.mix := by
    rw [hmix]; exact fun h => hold h.symm
  have hchar := reverb_setParameters_mix_changed rv p hne
  have hc0 : pa.math.clamp p.mix 0 1 = 0 := by
    rw [hmix]; exact pa.math.clamp_of_mem le_rfl zero_le_one
  have hdry : (Reverb.setParameters p rv).dry = 1 := by
    rw [hchar.1, hc0]; ring
  have ht1 : (Reverb.setParameters p rv).drySmooth.target = 1 := by
    rw [hchar.2.1, hc0]; ring
  have hw1 : (Reverb.setParameters p rv).wet1.target = 0 := by
    rw [hchar.2.2.1, hc0, pa.math.expRounder_zero]; ring
  have hw2 : (Reverb.setParameters p rv).wet2.target = 0 := by
    rw [hchar.2.2.2, hc0, pa.math.expRounder_zero]; ring
  refine ⟨hdry, ht1, hw1, hw2, ?_⟩
  have hmain := reverb_process_wets_zero
    ((Reverb.setParameters p rv).settleMixGains) l r rfl rfl rfl hw1 hw2
  rw [hmain]
  have : ((Reverb.setParameters p rv).settleMixGains).drySmooth.target
      = (1 : ℚ) := ht1
  rw [this]
  simp

open pa.dsp in
/-- C1 (witness): the amended bypass theorem at the concrete small reverb
`wReverbPrev` (previous mix 1/2) and samples `(7, -2)`. -/
theorem reverb_bypass_amended_witness :
    ({ mix := 0 : ReverbParameters }).mix = 0
    ∧ wReverbPrev.parameters.mix ≠ 0
    ∧ (Reverb.process 7 (-2)
        ((Reverb.setParameters { mix := 0 } wReverbPrev).settleMixGains)).1
        = (7, -2) :=
  ⟨rfl, by norm_num [wReverbPrev, cexReverbFresh],
   (reverb_bypass_amended wReverbPrev { mix := 0 } 7 (-2) rfl
      (by norm_num [wReverbPrev, cexReverbFresh])).2.2.2.2⟩

open pa.dsp in
/-- C1 (counterexample): a freshly built reverb has `dry = 0` and
`parameters.mix = 0`; calling `setParameters` with `mix = 0` then skips
`setMixValues` (the mix did not change), so `dry` stays `0` instead of the
claimed `1`, and — after the smoothed gains settle — `process(1, 1)` returns
`(0, 0)`, not the unchanged samples `(1, 1)`: the claim fails for this
reverb state even though its parameters were set with `mix = 0`. -/
theorem reverb_bypass_cex :
    cexReverbFresh.parameters.mix = 0
    ∧ cexReverbFresh.dry = 0
    ∧ (Reverb.setParameters { mix := 0 } cexReverbFresh).dry = 0
    ∧ (Reverb.process 1 1
        ((Reverb.setParameters { mix := 0 } cexReverbFresh).settleMixGains)).1
        = (0, 0)
    ∧ ((0 : ℚ), (0 : ℚ)) ≠ ((1 : ℚ), (1 : ℚ)) := by
  have hdry0 : (Reverb.setParameters { mix := 0 } cexReverbFresh).dry = 0 := by
    simp [Reverb.setParameters, cexReverbFresh, Reverb.setDamping,
      Reverb.setCombs]
  have hds : (Reverb.setParameters { mix := 0 } cexReverbFresh).drySmooth
      = {} := by
    simp [Reverb.setParameters, cexReverbFresh, Reverb.setDamping,
      Reverb.setCombs, SmoothedValue.setTargetValue]
  have hw1 : (Reverb.setParameters { mix := 0 } cexReverbFresh).wet1 = {} := by
    simp [Reverb.setParameters, cexReverbFresh, Reverb.setDamping,
      Reverb.setCombs, SmoothedValue.setTargetValue, Reverb.wetGainScale]
  have hw2 : (Reverb.setParameters { mix := 0 } cexReverbFresh).wet2 = {} := by
    simp [Reverb.setParameters, cexReverbFresh, Reverb.setDamping,
      Reverb.setCombs, SmoothedValue.setTargetValue, Reverb.wetGainScale]
  refine ⟨rfl, rfl, hdry0, ?_, by norm_num⟩
  have hset1 : ((Reverb.setParameters { mix := 0 } cexReverbFresh).settleMixGains).wet1.target = 0 := by
    show ((Reverb.setParameters { mix := 0 } cexReverbFresh).wet1.settled).target = 0
    rw [hw1]; rfl
  have hset2 : ((Reverb.setParameters { mix := 0 } cexReverbFresh).settleMixGains).wet2.target = 0 := by
    show ((Reverb.setParameters { mix := 0 } cexReverbFresh).wet2.settled).target = 0
    rw [hw2]; rfl
  have hmain := reverb_process_wets_zero
    ((Reverb.setParameters { mix := 0 } cexReverbFresh).settleMixGains) 1 1
    rfl rfl rfl hset1 hset2
  rw [hmain]
  have htd : ((Reverb.setParameters { mix := 0 } cexReverbFresh).settleMixGains).drySmooth.target = 0 := by
    show ((Reverb.setParameters { mix := 0 } cexReverbFresh).drySmooth.settled).target = 0
    rw [hds]; rfl
  rw [htd]
  simp

open pa.dsp in
/-- At a non-null input with the filter enabled, `Filter::process` performs
the direct-form biquad update. -/
theorem filter_process_some_enabled (f : Filter) (c : ℚ)
    (he : f.parameters.enabled = true) :
    Filter.process (some c) f
      = some (c * f.co.a0 + f.co.dly1,
          { f with co := { f.co with
              dly1 := c * f.co.a1 + f.co.dly2 - f.co.b1 * (c * f.co.a0 + f.co.dly1),
              dly2 := c * f.co.a2 - f.co.b2 * (c * f.co.a0 + f.co.dly1) } }) := by
  simp [Filter.process, he]

open pa.dsp in
/-- Steady-state output of the direct-form biquad update: a fixpoint of the
delay registers forces `out·(1+b1+b2) = c·(a0+a1+a2)`. -/
theorem biquad_fixpoint_out (a0 a1 a2 b1 b2 c d1 d2 : ℚ)
    (h1 : c * a1 + d2 - b1 * (c * a0 + d1) = d1)
    (h2 : c * a2 - b2 * (c * a0 + d1) = d2) :
    (c * a0 + d1) * (1 + b1 + b2) = c * (a0 + a1 + a2) := by
  linear_combination -h1 - h2

open pa.dsp in
/-- C5: with coefficients computed by `Filter::setCoefficients` from any
positive tangent value `k` and any positive Q (the valid-range image of the
cutoff prewarp), the steady-state fixpoint of the `process` recursion under
a constant input `c` outputs exactly `c` for the lowpass type and `0` for
the highpass type; equivalently `a0+a1+a2 = 1+b1+b2 ≠ 0` for the lowpass
coefficients and `a0+a1+a2 = 0` for the highpass coefficients. -/
theorem biquad_dc_gain (k q c d1 d2 e1 e2 : ℚ) (hk : 0 < k) (hq : 0 < q)
    (hL1 : (dcProcess .lowpass k q c d1 d2).2.co.dly1 = d1)
    (hL2 : (dcProcess .lowpass k q c d1 d2).2.co.dly2 = d2)
    (hH1 : (dcProcess .highpass k q c e1 e2).2.co.dly1 = e1)
    (hH2 : (dcProcess .highpass k q c e1 e2).2.co.dly2 = e2) :
    (dcProcess .lowpass k q c d1 d2).1 = c
    ∧ (dcProcess .highpass k q c e1 e2).1 = 0
    ∧ ((dcFilter .lowpass k q d1 d2).co.a0 + (dcFilter .lowpass k q d1 d2).co.a1
          + (dcFilter .lowpass k q d1 d2).co.a2
        = 1 + (dcFilter .lowpass k q d1 d2).co.b1
            + (dcFilter .lowpass k q d1 d2).co.b2)
    ∧ (1 + (dcFilter .lowpass k q d1 d2).co.b1
          + (dcFilter .lowpass k q d1 d2).co.b2 ≠ 0)
    ∧ ((dcFilter .highpass k q e1 e2).co.a0 + (dcFilter .highpass k q e1 e2).co.a1
          + (dcFilter .highpass k q e1 e2).co.a2 = 0) := by
  have hqq : q ≠ q + 1 := by intro h; linarith
  have hq0 : q ≠ 0 := ne_of_gt hq
  have hk0 : k ≠ 0 := ne_of_gt hk
  have hD : (0:ℚ) < 1 + k/q + k*k := by
    have h1 : 0 < k/q := div_pos hk hq
    nlinarith [mul_pos hk hk]
  have hDne : (1 + k/q + k*k) ≠ 0 := ne_of_gt hD
  have hnne : (1/(1 + k/q + k*k) : ℚ) ≠ 0 := one_div_ne_zero hDne
  have hL : dcFilter .lowpass k q d1 d2 =
    { parameters := { type := .lowpass, cutoff := 0, q := q, enabled := true },
      sampleRate := 0,
      co := { a0 := k*k*(1/(1 + k/q + k*k)), a1 := 2*(k*k*(1/(1 + k/q + k*k))),
              a2 := k*k*(1/(1 + k/q + k*k)),
              b1 := 2*(k*k - 1)*(1/(1 + k/q + k*k)),
              b2 := (1 - k/q + k*k)*(1/(1 + k/q + k*k)),
              dly1 := d1, dly2 := d2, k := k, k2 := k*k,
              n := 1/(1 + k/q + k*k),
              prevQ := q, prevCutoff := 0, prevSampleRate := 0 } } := by
    simp [dcFilter, Filter.setCoefficients, Filter.coeffsFor, hqq]
  have hH : dcFilter .highpass k q e1 e2 =
    { parameters := { type := .highpass, cutoff := 0, q := q, enabled := true },
      sampleRate := 0,
      co := { a0 := 1/(1 + k/q + k*k), a1 := -(2*(1/(1 + k/q + k*k))),
              a2 := 1/(1 + k/q + k*k),
              b1 := 2*(k*k - 1)*(1/(1 + k/q + k*k)),
              b2 := (1 - k/q + k*k)*(1/(1 + k/q + k*k)),
              dly1 := e1, dly2 := e2, k := k, k2 := k*k,
              n := 1/(1 + k/q + k*k),
              prevQ := q, prevCutoff := 0, prevSampleRate := 0 } } := by
    simp [dcFilter, Filter.setCoefficients, Filter.coeffsFor, hqq]
  have heL : (dcFilter .lowpass k q d1 d2).parameters.enabled = true := by
    rw [hL]
  have heH : (dcFilter .highpass k q e1 e2).parameters.enabled = true := by
    rw [hH]
  have hPL : dcProcess .lowpass k q c d1 d2
      = (c * (dcFilter .lowpass k q d1 d2).co.a0
           + (dcFilter .lowpass k q d1 d2).co.dly1,
         { dcFilter .lowpass k q d1 d2 with
           co := { (dcFilter .lowpass k q d1 d2).co with
             dly1 := c * (dcFilter .lowpass k q d1 d2).co.a1
               + (dcFilter .lowpass k q d1 d2).co.dly2
               - (dcFilter .lowpass k q d1 d2).co.b1
                 * (c * (dcFilter .lowpass k q d1 d2).co.a0
                    + (dcFilter .lowpass k q d1 d2).co.dly1),
             dly2 := c * (dcFilter .lowpass k q d1 d2).co.a2
               - (dcFilter .lowpass k q d1 d2).co.b2
                 * (c * (dcFilter .lowpass k q d1 d2).co.a0
                    + (dcFilter .lowpass k q d1 d2).co.dly1) } }) := by
    unfold dcProcess
    rw [filter_process_some_enabled _ _ heL]
    rfl
  have hPH : dcProcess .highpass k q c e1 e2
      = (c * (dcFilter .highpass k q e1 e2).co.a0
           + (dcFilter .highpass k q e1 e2).co.dly1,
         { dcFilter .highpass k q e1 e2 with
           co := { (dcFilter .highpass k q e1 e2).co with
             dly1 := c * (dcFilter .highpass k q e1 e2).co.a1
               + (dcFilter .highpass k q e1 e2).co.dly2
               - (dcFilter .highpass k q e1 e2).co.b1
                 * (c * (dcFilter .highpass k q e1 e2).co.a0
                    + (dcFilter .highpass k q e1 e2).co.dly1),
             dly2 := c * (dcFilter .highpass k q e1 e2).co.a2
               - (dcFilter .highpass k q e1 e2).co.b2
                 * (c * (dcFilter .highpass k q e1 e2).co.a0
                    + (dcFilter .highpass k q e1 e2).co.dly1) } }) := by
    unfold dcProcess
    rw [filter_process_some_enabled _ _ heH]
    rfl
  rw [hPL] at hL1 hL2
  rw [hPH] at hH1 hH2
  rw [hL] at hL1 hL2
  rw [hH] at hH1 hH2
  dsimp only at hL1 hL2 hH1 hH2
  have keyL := biquad_fixpoint_out
    (k*k*(1/(1 + k/q + k*k))) (2*(k*k*(1/(1 + k/q + k*k))))
    (k*k*(1/(1 + k/q + k*k))) (2*(k*k - 1)*(1/(1 + k/q + k*k)))
    ((1 - k/q + k*k)*(1/(1 + k/q + k*k))) c d1 d2 hL1 hL2
  have keyH := biquad_fixpoint_out
    (1/(1 + k/q + k*k)) (-(2*(1/(1 + k/q + k*k))))
    (1/(1 + k/q + k*k)) (2*(k*k - 1)*(1/(1 + k/q + k*k)))
    ((1 - k/q + k*k)*(1/(1 + k/q + k*k))) c e1 e2 hH1 hH2
  have hS : 1 + 2*(k*k - 1)*(1/(1 + k/q + k*k))
      + (1 - k/q + k*k)*(1/(1 + k/q + k*k))
      = 4*(k*k)*(1/(1 + k/q + k*k)) := by
    field_simp
    ring
  have hSne : (1 + 2*(k*k - 1)*(1/(1 + k/q + k*k))
      + (1 - k/q + k*k)*(1/(1 + k/q + k*k))) ≠ 0 := by
    rw [hS]
    exact mul_ne_zero (mul_ne_zero (by norm_num) (mul_ne_zero hk0 hk0)) hnne
  have hsumL : k*k*(1/(1 + k/q + k*k)) + 2*(k*k*(1/(1 + k/q + k*k)))
      + k*k*(1/(1 + k/q + k*k))
      = 1 + 2*(k*k - 1)*(1/(1 + k/q + k*k))
        + (1 - k/q + k*k)*(1/(1 + k/q + k*k)) := by
    rw [hS]; field_simp; ring
  have hsumH : (1/(1 + k/q + k*k)) + (-(2*(1/(1 + k/q + k*k))))
      + (1/(1 + k/q + k*k)) = 0 := by ring
  refine ⟨?_, ?_, ?_, ?_, ?_⟩
  · rw [hPL, hL]
    dsimp only
    apply mul_right_cancel₀ hSne
    rw [keyL, ← hsumL]
  · rw [hPH, hH]
    dsimp only
    apply mul_right_cancel₀ hSne
    rw [keyH, hsumH]
    ring
  · rw [hL]; dsimp only; exact hsumL
  · rw [hL]; dsimp only; exact hSne
  · rw [hH]; dsimp only; exact hsumH

open pa.dsp in
/-- C5 (witness): the DC-gain theorem at `k = 1`, `Q = 1`, constant input 1,
with the concrete fixpoints `(2/3, 0)` (lowpass) and `(-1/3, 1/3)`
(highpass). -/
theorem biquad_dc_gain_witness :
    (dcProcess .lowpass 1 1 1 (2/3) 0).2.co.dly1 = 2/3
    ∧ (dcProcess .lowpass 1 1 1 (2/3) 0).1 = 1
    ∧ (dcProcess .highpass 1 1 1 (-(1/3)) (1/3)).1 = 0 := by
  have hfl1 : (dcProcess .lowpass 1 1 1 (2/3) 0).2.co.dly1 = 2/3 := by
    norm_num [dcProcess, dcFilter, Filter.setCoefficients, Filter.coeffsFor,
      Filter.process]
  have hfl2 : (dcProcess .lowpass 1 1 1 (2/3) 0).2.co.dly2 = 0 := by
    norm_num [dcProcess, dcFilter, Filter.setCoefficients, Filter.coeffsFor,
      Filter.process]
  have hfh1 : (dcProcess .highpass 1 1 1 (-(1/3)) (1/3)).2.co.dly1 = -(1/3) := by
    norm_num [dcProcess, dcFilter, Filter.setCoefficients, Filter.coeffsFor,
      Filter.process]
  have hfh2 : (dcProcess .highpass 1 1 1 (-(1/3)) (1/3)).2.co.dly2 = 1/3 := by
    norm_num [dcProcess, dcFilter, Filter.setCoefficients, Filter.coeffsFor,
      Filter.process]
  have h := biquad_dc_gain 1 1 1 (2/3) 0 (-(1/3)) (1/3) (by norm_num)
    (by norm_num) hfl1 hfl2 hfh1 hfh2
  exact ⟨hfl1, h.1, h.2.1⟩

open pa.dsp in
/-- `setDelayTime` only touches the smoothed delay time: buffer contents,
write index, size and sample rate are unchanged. -/
theorem setDelayTime_preserve (rb : RingBuffer) (t st : ℚ) :
    (rb.setDelayTime t st).buffer = rb.buffer
    ∧ (rb.setDelayTime t st).writeIndex = rb.writeIndex
    ∧ (rb.setDelayTime t st).size = rb.size
    ∧ (rb.setDelayTime t st).sampleRate = rb.sampleRate := by
  dsimp only [RingBuffer.setDelayTime]
  split_ifs <;> exact ⟨rfl, rfl, rfl, rfl⟩

open pa.dsp in
/-- `setTargetValue` on the default-constructed smoothed value jumps
straight to the target (its ramp length is 0). -/
theorem setTargetValue_default (v : ℚ) :
    SmoothedValue.setTargetValue v {}
      = { currentValue := v, target := v, step := 0, stepsToTarget := 0,
          countdown := 0 } := by
  by_cases hv : v = 0 <;>
    simp_all [SmoothedValue.setTargetValue, SmoothedValue.setCurrentAndTargetValue]

open pa.dsp in
/-- Pushing a sequence that exactly fills the remaining capacity of a
well-formed ring buffer overwrites the tail of the stored data with the
sequence and wraps the write index back to 0. -/
theorem pushList_fill (t : List ℚ) : ∀ rb : RingBuffer,
    rb.size = rb.buffer.data.length → rb.size < U32 →
    rb.writeIndex + t.length = rb.size → t ≠ [] →
    (RingBuffer.pushList rb t).buffer.data = rb.buffer.data.take rb.writeIndex ++ t
    ∧ (RingBuffer.pushList rb t).writeIndex = 0
    ∧ (RingBuffer.pushList rb t).size = rb.size
    ∧ (RingBuffer.pushList rb t).sampleRate = rb.sampleRate
    ∧ (RingBuffer.pushList rb t).delayTime = rb.delayTime
    ∧ (RingBuffer.pushList rb t).delaySmoothTime = rb.delaySmoothTime := by
  induction t with
  | nil => intro rb _ _ _ hne; exact absurd rfl hne
  | cons x t' ih =>
    intro rb hlen hsz hcount _
    simp only [List.length_cons] at hcount
    have hwi : rb.writeIndex < rb.size := by omega
    have hps := pushToBuffer_spec rb x hlen hwi hsz
    have hstep : RingBuffer.pushList rb (x :: t')
        = RingBuffer.pushList (rb.pushToBuffer (some x)) t' := rfl
    by_cases ht : t' = []
    · subst ht
      rw [hstep]
      have hone : RingBuffer.pushList (rb.pushToBuffer (some x)) []
          = rb.pushToBuffer (some x) := rfl
      rw [hone]
      simp only [List.length_nil] at hcount
      refine ⟨?_, ?_, hps.2.2.1, hps.2.2.2.2.1, hps.2.2.2.2.2.1,
        hps.2.2.2.2.2.2⟩
      · rw [hps.2.2.2.1]
        exact listSet_last_full (by omega)
      · rw [hps.2.1, if_pos (by omega)]
        omega
    · rw [hstep]
      have ht1 : 1 ≤ t'.length := by
        cases t' with
        | nil => exact absurd rfl ht
        | cons a b => simp
      have hwix : (rb.pushToBuffer (some x)).writeIndex = rb.writeIndex + 1 := by
        rw [hps.2.1, if_neg (by omega)]
      have h1 : (rb.pushToBuffer (some x)).size
          = (rb.pushToBuffer (some x)).buffer.data.length := by
        rw [hps.2.2.1, hps.2.2.2.1, List.length_set]
        exact hlen
      have h2 : (rb.pushToBuffer (some x)).size < U32 := by
        rw [hps.2.2.1]; exact hsz
      have h3 : (rb.pushToBuffer (some x)).writeIndex + t'.length
          = (rb.pushToBuffer (some x)).size := by
        rw [hwix, hps.2.2.1]; omega
      have hih := ih (rb.pushToBuffer (some x)) h1 h2 h3 ht
      refine ⟨?_, hih.2.1, ?_, ?_, ?_, ?_⟩
      · rw [hih.1, hps.2.2.2.1, hwix,
          listTake_set_succ (by omega)]
        simp
      · rw [hih.2.2.1, hps.2.2.1]
      · rw [hih.2.2.2.1, hps.2.2.2.2.1]
      · rw [hih.2.2.2.2.1, hps.2.2.2.2.2.1]
      · rw [hih.2.2.2.2.2, hps.2.2.2.2.2.2]

open pa.dsp in
/-- `RingBuffer::prepare` on a fresh buffer, with a self-consistent request
(nonzero capacity within the 600 s bound, nonzero rate, no 32-bit overflow
in the clamp bounds), allocates exactly the requested capacity, zeroed, with
write index 0 and the requested rate. -/
theorem prepare_fresh_spec (N R : ℕ) (hN : 1 ≤ N) (hR : 1 ≤ R)
    (hcap : N ≤ 600 * R) (hov : N * R * 10 < U32) (hov2 : 600 * R < U32) :
    RingBuffer.prepare N R {}
      = { buffer := { data := List.replicate N 0, oobCell := 0 },
          size := N, writeIndex := 0, sampleRate := R,
          delaySmoothTime := 0, delayTime := {} } := by
  simp only [U32] at hov hov2
  have hle1 : N ≤ N * R * 10 := by
    rw [Nat.mul_assoc]
    exact Nat.le_mul_of_pos_right _ (by omega)
  dsimp only [RingBuffer.prepare, pa.math.clampU, U32]
  have hmodN : N % 4294967296 = N := Nat.mod_eq_of_lt (by omega)
  have hmodR : R % 4294967296 = R := Nat.mod_eq_of_lt (by omega)
  simp only [hmodN, hmodR]
  have hmodP : N * R * 10 % 4294967296 = N * R * 10 :=
    Nat.mod_eq_of_lt (by omega)
  have hmod600 : R * 600 % 4294967296 = R * 600 :=
    Nat.mod_eq_of_lt (by omega)
  simp only [hmodP, hmod600]
  rw [if_neg (show ¬ N < 0 by omega),
      if_neg (show ¬ N > N * R * 10 by omega)]
  rw [if_pos (show N ≠ (0 : ℕ) by omega)]
  rw [if_neg (show ¬ N < 0 by omega),
      if_neg (show ¬ N > R * 600 by omega)]
  split_ifs <;>
    simp_all [HeapBlock.reallocate, HeapBlock.initialise]

open pa.dsp in
/-- C3: for a ring buffer prepared with capacity `N = s.length` at rate `R`,
pushing the sequence `s` fills the buffer and wraps the write index back to
0; setting the delay time to `k/R` (`0 ≤ k < N`, zero smoothing) and reading
with no interpolation returns `s[(writeIndex − k) mod N]` — here
`s[(N − k) mod N]`, the sample written `k` steps earlier. -/
theorem delay_roundtrip (s : List ℚ) (R k : ℕ)
    (hk : k < s.length) (hR : 1 ≤ R) (hcap : s.length ≤ 600 * R)
    (hov : s.length * R * 10 < U32) (hov2 : 600 * R < U32) :
    (RingBuffer.pushList (RingBuffer.prepare s.length R {}) s).writeIndex = 0
    ∧ (((RingBuffer.pushList (RingBuffer.prepare s.length R {}) s).setDelayTime
          ((k : ℚ) / (R : ℚ)) 0).getFromBuffer .noInterp).1
        = s.getD ((s.length - k) % s.length) 0 := by
  have hN : 1 ≤ s.length := by omega
  have hN32 : s.length < U32 := by simp only [U32] at hov2 ⊢; omega
  have hk32 : k < U32 := by omega
  have hprep := prepare_fresh_spec s.length R hN hR hcap hov hov2
  rw [hprep]
  set rb0 : RingBuffer :=
    { buffer := { data := List.replicate s.length 0, oobCell := 0 },
      size := s.length, writeIndex := 0, sampleRate := R,
      delaySmoothTime := 0, delayTime := {} } with hrb0
  have hfill := pushList_fill s rb0 (by simp [hrb0]) (by simpa [hrb0] using hN32)
      (by simp [hrb0]) (by intro h; subst h; simp at hk)
  set rb1 := RingBuffer.pushList rb0 s with hrb1
  have hdata : rb1.buffer.data = s := by
    rw [hfill.1]; simp [hrb0]
  have hwi0 : rb1.writeIndex = 0 := hfill.2.1
  have hsizeN : rb1.size = s.length := hfill.2.2.1
  have hrate : rb1.sampleRate = R := hfill.2.2.2.1
  have hdt1 : rb1.delayTime = {} := hfill.2.2.2.2.1
  have hsm1 : rb1.delaySmoothTime = 0 := hfill.2.2.2.2.2
  refine ⟨hwi0, ?_⟩
  have hRpos : (0 : ℚ) < (R : ℚ) := by
    exact_mod_cast Nat.lt_of_lt_of_le Nat.zero_lt_one hR
  have hclamp : pa.math.clamp |(k : ℚ) / (R : ℚ)| 0
      ((rb1.size : ℚ) / (rb1.sampleRate : ℚ)) = (k : ℚ) / (R : ℚ) := by
    rw [hsizeN, hrate,
      abs_of_nonneg (div_nonneg (Nat.cast_nonneg k) (Nat.cast_nonneg R))]
    exact pa.math.clamp_of_mem
      (div_nonneg (Nat.cast_nonneg k) (Nat.cast_nonneg R))
      ((div_le_div_iff_of_pos_right hRpos).mpr
        (Nat.cast_le.mpr (le_of_lt hk)))
  have hdt2 : (rb1.setDelayTime ((k : ℚ) / (R : ℚ)) 0).delayTime
      = { currentValue := (k : ℚ) / (R : ℚ), target := (k : ℚ) / (R : ℚ),
          step := 0, stepsToTarget := 0, countdown := 0 } := by
    dsimp only [RingBuffer.setDelayTime]
    rw [if_neg (by rw [hsm1]; simp)]
    rw [hdt1, hclamp, setTargetValue_default]
  have hsd := setDelayTime_preserve rb1 ((k : ℚ) / (R : ℚ)) 0
  set rb2 := rb1.setDelayTime ((k : ℚ) / (R : ℚ)) 0 with hrb2
  show (rb2.getFromBufferNoInterp).1 = _
  dsimp only [RingBuffer.getFromBufferNoInterp]
  rw [hdt2]
  rw [show SmoothedValue.getNextValue
      { currentValue := (k : ℚ) / (R : ℚ), target := (k : ℚ) / (R : ℚ),
        step := 0, stepsToTarget := 0, countdown := 0 }
      = ((k : ℚ) / (R : ℚ),
         { currentValue := (k : ℚ) / (R : ℚ), target := (k : ℚ) / (R : ℚ),
           step := 0, stepsToTarget := 0, countdown := 0 }) from rfl]
  dsimp only
  rw [hsd.2.2.2, hrate]
  rw [show ((R : ℕ) : ℚ) * ((k : ℚ) / (R : ℚ)) = (k : ℚ) by
    field_simp]
  rw [show uintOfRat ((k : ℕ) : ℚ) = k by
    simp [uintOfRat, ratTrunc]
    exact Nat.mod_eq_of_lt hk32]
  have hw : rb2.writeIndex = 0 := by rw [hsd.2.1, hwi0]
  have hs : rb2.size = s.length := by rw [hsd.2.2.1, hsizeN]
  have hbuf : rb2.buffer = rb1.buffer := hsd.1
  dsimp only [RingBuffer.getReadIndex, HeapBlock.get, U32]
  simp only [hw, hs, hbuf, hdata]
  simp only [U32] at hN32 hk32
  have hidx : (if ((0 % 4294967296 + (4294967296 - k % 4294967296)
        + s.length % 4294967296) % 4294967296 : ℕ) ≥ s.length
      then (0 % 4294967296 + (4294967296 - k % 4294967296)
        + s.length % 4294967296) % 4294967296 - s.length
      else (0 % 4294967296 + (4294967296 - k % 4294967296)
        + s.length % 4294967296) % 4294967296)
      = (s.length - k) % s.length := by
    rcases Nat.eq_zero_or_pos k with hk0 | hk0
    · subst hk0
      have h0 : (s.length - 0) % s.length = 0 := by simp
      rw [h0]
      split_ifs <;> omega
    · rw [Nat.mod_eq_of_lt (show s.length - k < s.length by omega)]
      split_ifs <;> omega
  rw [hidx]
  rw [if_neg (Nat.not_le.mpr (Nat.mod_lt _ (by omega)))]

open pa.dsp in
/-- C3 (witness): the round-trip theorem at the sequence `[5, 7]`, rate 1,
delay `k = 1` — the read returns 7, the sample written one step earlier. -/
theorem delay_roundtrip_witness :
    ((1 : ℕ) < ([5, 7] : List ℚ).length)
    ∧ (((RingBuffer.pushList
          (RingBuffer.prepare ([5, 7] : List ℚ).length 1 {}) [5, 7]).setDelayTime
            (((1 : ℕ) : ℚ) / ((1 : ℕ) : ℚ)) 0).getFromBuffer .noInterp).1 = 7 := by
  have h := delay_roundtrip [5, 7] 1 1 (by norm_num) le_rfl (by norm_num)
    (by norm_num [U32]) (by norm_num [U32])
  refine ⟨by norm_num, ?_⟩
  rw [h.2]
  norm_num [List.getD]
